import Mathlib

/-!
Verification development for the Beetle UTF-8 codec library.

The definitions below are a shallow embedding of the C++ sources:

* `src/src/utf8/internal/dfa.hpp` — the forward/backward UTF-8 DFA
  (class `beetle::utf8::internal::DFA`): states, character classes,
  leading-byte table, transition tables, ending states, and the
  `advance` / `decode_and_advance` / `copy_and_advance` primitives.
* `src/include/beetle/utf8/algorithm.hpp` — the range-level operations
  `is_valid`, `find_invalid`, `find_leading_byte`, `str_len`, `encode`,
  `decode`, `sanitize`.
* `src/include/beetle/utf8/iterator.hpp` — the checked character
  iterator primitive `prev_once_fn`.
* `src/include/beetle/unicode/code_point.hpp` — code point validation
  (`is_out_of_range`, `is_surrogate`, `is_code_point`, `validate`,
  `make_code_point`).

Byte sequences are modelled as `List Nat` with every element below 256
(`char8_t` values); code points as `Nat` (`char32_t` values).  Iterator
pairs `(first, last)` of the C++ become a consumed prefix and a returned
remaining suffix; for the backward walker the cursor is an `Int` index
into the sequence, since the C++ decrements raw bidirectional iterators.

The C++ while-loops that advance an iterator of the range are modelled
either structurally on the remaining list (inner per-character loops) or
with an explicit iteration bound (outer per-string loops, bounded by the
length of the list because every round consumes at least one byte; the
range-level `encode` loop gets an unbounded fuel because the loop in the
source never advances its iterator).
-/

namespace Beetle

/-- States of the two DFAs, from `DFA::State` in `dfa.hpp` (lines 53-91):
seven working states `eS1..eS7`, the accepting state `eAccept`, and the
four error states. -/
inductive State where
  | eS1
  | eS2
  | eS3
  | eS4
  | eS5
  | eS6
  | eS7
  | eAccept
  | eErrLead
  | eErrOvrlg
  | eErrCont
  | eErrMiss
deriving DecidableEq, Repr

/-- Numeric value of a state as declared by the C++ enum (`eS1 = 0`, the
rest consecutive). -/
def state_index : State → Nat
  | State.eS1 => 0
  | State.eS2 => 1
  | State.eS3 => 2
  | State.eS4 => 3
  | State.eS5 => 4
  | State.eS6 => 5
  | State.eS7 => 6
  | State.eAccept => 7
  | State.eErrLead => 8
  | State.eErrOvrlg => 9
  | State.eErrCont => 10
  | State.eErrMiss => 11

/-- Character classes of bytes, from `DFA::CharClass` in `dfa.hpp`
(lines 228-241). -/
inductive CharClass where
  | eASC
  | eC1
  | eC2
  | eC3
  | eC4
  | eC5
  | eC6
  | eC7
  | eC8
  | eC9
  | eC10
  | eIgl
deriving DecidableEq, Repr

/-- The 256-entry class table `DFA::TableData::char_class` (`dfa.hpp`
lines 483-578), written by the ranges of its blocks: 00..7F ASC,
80..8F C1, 90..9F C2, A0..BF C3, C0..C1 Igl, C2..DF C4, E0 C5,
E1..EC and EE..EF C6, ED C7, F0 C8, F1..F3 C9, F4 C10, F5..FF Igl. -/
def char_class (b : Nat) : CharClass :=
  if b ≤ 0x7F then CharClass.eASC
  else if b ≤ 0x8F then CharClass.eC1
  else if b ≤ 0x9F then CharClass.eC2
  else if b ≤ 0xBF then CharClass.eC3
  else if b ≤ 0xC1 then CharClass.eIgl
  else if b ≤ 0xDF then CharClass.eC4
  else if b = 0xE0 then CharClass.eC5
  else if b = 0xED then CharClass.eC7
  else if b ≤ 0xEF then CharClass.eC6
  else if b = 0xF0 then CharClass.eC8
  else if b ≤ 0xF3 then CharClass.eC9
  else if b = 0xF4 then CharClass.eC10
  else CharClass.eIgl

/-- Record stored in the leading-byte table: the state entered after
consuming the leading byte, and the pre-decoded payload bits
(`DFA::LeadingByteInfo`, `dfa.hpp` lines 243-253). -/
structure LeadingByteInfo where
  next_state : State
  data : Nat
deriving DecidableEq, Repr

/-- The table `DFA::TableData::leading_byte_states` (`dfa.hpp` lines
583-735), indexed by the byte (the C++ subtracts 0x80 before indexing).
The rows are: 80..BF ErrLead with data the byte itself — except the
stray source entry for 0x89 whose data field reads 0x80; C0..C1
ErrOvrlg with data the byte; C2..DF S1 with data the low five bits;
E0 S2 data 0; E1..EC and EE..EF S4 data the low four bits; ED S3 data
0x0D; F0 S5 data 0; F1..F3 S6 data the low three bits; F4 S7 data 4;
F5..FF ErrLead with data the byte.  The function is never consulted for
bytes below 0x80 (the C++ asserts this); those return the ErrLead row.  -/
def get_leading_byte_info (b : Nat) : LeadingByteInfo :=
  if b ≤ 0xBF then { next_state := State.eErrLead, data := if b = 0x89 then 0x80 else b }
  else if b ≤ 0xC1 then { next_state := State.eErrOvrlg, data := b }
  else if b ≤ 0xDF then { next_state := State.eS1, data := b % 32 }
  else if b = 0xE0 then { next_state := State.eS2, data := 0 }
  else if b = 0xED then { next_state := State.eS3, data := 0x0D }
  else if b ≤ 0xEF then { next_state := State.eS4, data := b % 16 }
  else if b = 0xF0 then { next_state := State.eS5, data := 0 }
  else if b ≤ 0xF3 then { next_state := State.eS6, data := b % 16 }
  else if b = 0xF4 then { next_state := State.eS7, data := 4 }
  else { next_state := State.eErrLead, data := b }

/-- `DFA::can_advance` (`dfa.hpp` line 449): a state is a working state
iff its enum value is below `eAccept`. -/
def can_advance (s : State) : Bool := state_index s < 7

/-- Forward transition table `DFA::TableData::forward_transitions`
(`dfa.hpp` lines 742-798) composed with the class lookup, exactly as
`DFA::advance_state_forward` (lines 453-462) does.  The C++ indexes the
84-entry table by `state * 12 + class`; rows exist only for the seven
working states, and the callers only invoke it on working states (they
guard with `can_advance`), so non-working states are mapped to
themselves here. -/
def advance_state_forward (s : State) (b : Nat) : State :=
  match s, char_class b with
  | State.eS1, CharClass.eC1 => State.eAccept
  | State.eS1, CharClass.eC2 => State.eAccept
  | State.eS1, CharClass.eC3 => State.eAccept
  | State.eS1, _ => State.eErrCont
  | State.eS2, CharClass.eC1 => State.eErrOvrlg
  | State.eS2, CharClass.eC2 => State.eErrOvrlg
  | State.eS2, CharClass.eC3 => State.eS1
  | State.eS2, _ => State.eErrCont
  | State.eS3, CharClass.eC1 => State.eS1
  | State.eS3, CharClass.eC2 => State.eS1
  | State.eS3, _ => State.eErrCont
  | State.eS4, CharClass.eC1 => State.eS1
  | State.eS4, CharClass.eC2 => State.eS1
  | State.eS4, CharClass.eC3 => State.eS1
  | State.eS4, _ => State.eErrCont
  | State.eS5, CharClass.eC1 => State.eErrOvrlg
  | State.eS5, CharClass.eC2 => State.eS4
  | State.eS5, CharClass.eC3 => State.eS4
  | State.eS5, _ => State.eErrCont
  | State.eS6, CharClass.eC1 => State.eS4
  | State.eS6, CharClass.eC2 => State.eS4
  | State.eS6, CharClass.eC3 => State.eS4
  | State.eS6, _ => State.eErrCont
  | State.eS7, CharClass.eC1 => State.eS4
  | State.eS7, _ => State.eErrCont
  | s, _ => s

/-- Backward transition table `DFA::TableData::backward_transitions`
(`dfa.hpp` lines 805-844) composed with the class lookup, exactly as
`DFA::advance_state_backward` (lines 464-473) does.  Rows exist only for
`eS1..eS5`; as above non-row states map to themselves. -/
def advance_state_backward (s : State) (b : Nat) : State :=
  match s, char_class b with
  | State.eS1, CharClass.eC1 => State.eS2
  | State.eS1, CharClass.eC2 => State.eS2
  | State.eS1, CharClass.eC3 => State.eS3
  | State.eS1, CharClass.eC4 => State.eAccept
  | State.eS1, _ => State.eErrCont
  | State.eS2, CharClass.eC1 => State.eS4
  | State.eS2, CharClass.eC2 => State.eS5
  | State.eS2, CharClass.eC3 => State.eS5
  | State.eS2, CharClass.eC5 => State.eErrOvrlg
  | State.eS2, CharClass.eC6 => State.eAccept
  | State.eS2, CharClass.eC7 => State.eAccept
  | State.eS2, CharClass.eC8 => State.eErrMiss
  | State.eS2, CharClass.eC9 => State.eErrMiss
  | State.eS2, CharClass.eC10 => State.eErrMiss
  | State.eS2, _ => State.eErrCont
  | State.eS3, CharClass.eC1 => State.eS4
  | State.eS3, CharClass.eC2 => State.eS5
  | State.eS3, CharClass.eC3 => State.eS5
  | State.eS3, CharClass.eC5 => State.eAccept
  | State.eS3, CharClass.eC6 => State.eAccept
  | State.eS3, CharClass.eC8 => State.eErrMiss
  | State.eS3, CharClass.eC9 => State.eErrMiss
  | State.eS3, CharClass.eC10 => State.eErrMiss
  | State.eS3, _ => State.eErrCont
  | State.eS4, CharClass.eC8 => State.eErrOvrlg
  | State.eS4, CharClass.eC9 => State.eAccept
  | State.eS4, CharClass.eC10 => State.eAccept
  | State.eS4, _ => State.eErrLead
  | State.eS5, CharClass.eC8 => State.eAccept
  | State.eS5, CharClass.eC9 => State.eAccept
  | State.eS5, _ => State.eErrLead
  | s, _ => s

/-- `DFA::TableData::ending_states` (`dfa.hpp` lines 851-856) applied by
`DFA::get_ending_state`: working states become `eErrMiss` (end of input
mid-character), everything else passes through. -/
def get_ending_state (s : State) : State :=
  match s with
  | State.eS1 => State.eErrMiss
  | State.eS2 => State.eErrMiss
  | State.eS3 => State.eErrMiss
  | State.eS4 => State.eErrMiss
  | State.eS5 => State.eErrMiss
  | State.eS6 => State.eErrMiss
  | State.eS7 => State.eErrMiss
  | s => s

/-- The UTF-8 error enumeration `beetle::utf8::Error` from
`include/beetle/utf8/error.hpp` (lines 47-77). -/
inductive Utf8Error where
  | eNone
  | eLeadingByte
  | eOverlongEncoded
  | eContinuationByte
  | eMissingByte
  | eUnknown
deriving DecidableEq, Repr

/-- `DFA::ending_state_to_error` (`dfa.hpp` lines 211-218): subtracting
the enum offset maps `eErrLead ↦ eLeadingByte`, `eErrOvrlg ↦
eOverlongEncoded`, `eErrCont ↦ eContinuationByte`, `eErrMiss ↦
eMissingByte`.  The C++ asserts the argument is one of the four error
states; the remaining states are mapped to `eUnknown` here. -/
def ending_state_to_error (s : State) : Utf8Error :=
  match s with
  | State.eErrLead => Utf8Error.eLeadingByte
  | State.eErrOvrlg => Utf8Error.eOverlongEncoded
  | State.eErrCont => Utf8Error.eContinuationByte
  | State.eErrMiss => Utf8Error.eMissingByte
  | _ => Utf8Error.eUnknown

/-- `beetle::utf8::internal::is_ascii` from
`src/utf8/internal/code_unit.hpp`. -/
def is_ascii (b : Nat) : Bool := b < 0x80

/-- `beetle::utf8::internal::is_mb_leading_byte` from
`src/utf8/internal/code_unit.hpp`. -/
def is_mb_leading_byte (b : Nat) : Bool := decide (0xC2 ≤ b ∧ b ≤ 0xF4)

/-- `beetle::utf8::internal::is_leading_byte` from
`src/utf8/internal/code_unit.hpp`. -/
def is_leading_byte (b : Nat) : Bool := is_ascii b || is_mb_leading_byte b

/-- `beetle::utf8::internal::is_continuation_byte` from
`src/utf8/internal/code_unit.hpp`: the byte has the form 10xxxxxx. -/
def is_continuation_byte (b : Nat) : Bool := b &&& 0xC0 = 0x80

/-- The while-loop of `DFA::advance_mb_forward_once` (`dfa.hpp` lines
266-271): while input remains and the state is a working state, step the
forward DFA and consume the byte.  Returns the state at loop exit and
the unconsumed suffix. -/
def forward_loop : State → List Nat → State × List Nat
  | state, [] => (state, [])
  | state, b :: rest =>
    if can_advance state then forward_loop (advance_state_forward state b) rest
    else (state, b :: rest)

/-- `DFA::advance_mb_forward_once` (`dfa.hpp` lines 257-274) on a
non-ASCII leading byte `b` with remaining input `rest`: enter the state
given by the leading-byte table (consuming `b`), run the loop, and apply
the ending-state table. -/
def advance_mb_forward_once (b : Nat) (rest : List Nat) : State × List Nat :=
  let p := forward_loop (get_leading_byte_info b).next_state rest
  (get_ending_state p.1, p.2)

/-- `DFA::advance_forward_once` (`dfa.hpp` lines 93-107) on a nonempty
range whose first byte is `b` and remaining bytes are `rest`: ASCII is
accepted immediately, otherwise the multi-byte walker runs. -/
def advance_forward_once (b : Nat) (rest : List Nat) : State × List Nat :=
  if is_ascii b then (State.eAccept, rest) else advance_mb_forward_once b rest

/-- The while-loop of `DFA::decode_and_advance_mb_forward_once`
(`dfa.hpp` lines 368-378): as `forward_loop`, also shifting the low six
bits of each consumed byte into the accumulator.  The accumulator is a
`char32_t` in the C++; no truncation is modelled because the loop runs
at most three times from a working start state with an initial value
at most 0x1F, so the value stays far below 2^32. -/
def decode_forward_loop : State → Nat → List Nat → State × Nat × List Nat
  | state, acc, [] => (state, acc, [])
  | state, acc, b :: rest =>
    if can_advance state then
      decode_forward_loop (advance_state_forward state b) ((acc <<< 6) ||| (b &&& 0x3F)) rest
    else (state, acc, b :: rest)

/-- `DFA::decode_and_advance_mb_forward_once` (`dfa.hpp` lines 354-381):
the accumulator starts from the payload of the leading byte. -/
def decode_and_advance_mb_forward_once (b : Nat) (rest : List Nat) : State × Nat × List Nat :=
  let info := get_leading_byte_info b
  let p := decode_forward_loop info.next_state info.data rest
  (get_ending_state p.1, p.2.1, p.2.2)

/-- `DFA::decode_and_advance_forward_once` (`dfa.hpp` lines 125-143):
ASCII bytes decode to themselves. -/
def decode_and_advance_forward_once (b : Nat) (rest : List Nat) : State × Nat × List Nat :=
  if is_ascii b then (State.eAccept, b, rest)
  else decode_and_advance_mb_forward_once b rest

/-- The while-loop of `DFA::copy_and_advance_mb_forward_once`
(`dfa.hpp` lines 396-404): as `forward_loop`, also appending each byte
consumed by the loop to the output. -/
def copy_forward_loop : State → List Nat → List Nat → State × List Nat × List Nat
  | state, out, [] => (state, out, [])
  | state, out, b :: rest =>
    if can_advance state then
      copy_forward_loop (advance_state_forward state b) (out ++ [b]) rest
    else (state, out, b :: rest)

/-- `DFA::copy_and_advance_mb_forward_once` (`dfa.hpp` lines 385-407):
the leading byte is consumed (lines 393-394) before the loop starts, and
the source never writes it to the output iterator — the output gathers
only the bytes consumed inside the loop. -/
def copy_and_advance_mb_forward_once (b : Nat) (rest : List Nat) : State × List Nat × List Nat :=
  let p := copy_forward_loop (get_leading_byte_info b).next_state [] rest
  (get_ending_state p.1, p.2.1, p.2.2)

/-- `DFA::copy_and_advance_forward_once` (`dfa.hpp` lines 165-186): for
an ASCII byte the consumed byte is written to the output (lines
176-180); otherwise the multi-byte walker runs. -/
def copy_and_advance_forward_once (b : Nat) (rest : List Nat) : State × List Nat × List Nat :=
  if is_ascii b then (State.eAccept, [b], rest)
  else copy_and_advance_mb_forward_once b rest

/-- Byte read through a bidirectional cursor, used by the backward
walker.  The C++ dereferences a raw iterator; reads at well-defined
positions are modelled exactly and any out-of-range read (undefined
behavior in the source) returns 0.  No use below reads out of range. -/
def byteAt (B : List Nat) (i : Int) : Nat :=
  if 0 ≤ i then B.getD i.toNat 0 else 0

/-- The while-loop of `DFA::advance_mb_backward_once` (`dfa.hpp` lines
292-297): while the cursor has not reached the left bound and the state
is working, step the backward DFA on the byte under the cursor and
decrement the cursor.  The `fuel` argument bounds the iterations: the
callers pass `first - bound`, which the loop can never exhaust when
`first ≥ bound` because each round moves the cursor one step toward the
bound (for `first < bound` the C++ loop runs out of the buffer, which is
undefined behavior). -/
def backward_loop (B : List Nat) (bound : Int) : Nat → State → Int → State × Int
  | 0, state, first => (state, first)
  | fuel + 1, state, first =>
    if first = bound ∨ ¬ can_advance state then (state, first)
    else backward_loop B bound fuel (advance_state_backward state (byteAt B first)) (first - 1)

/-- `DFA::advance_mb_backward_once` (`dfa.hpp` lines 276-300): the byte
under the cursor must be a continuation byte, then the walk starts in
`eS1` one position to the left, and the ending-state table is applied to
the state at loop exit. -/
def advance_mb_backward_once (B : List Nat) (first bound : Int) : State × Int :=
  if ¬ is_continuation_byte (byteAt B first) then (State.eErrCont, first)
  else
    let p := backward_loop B bound (first - bound).toNat State.eS1 (first - 1)
    (get_ending_state p.1, p.2)

/-- `DFA::advance_backward_once` (`dfa.hpp` lines 109-123): an ASCII
byte under the cursor is accepted and the cursor decremented, otherwise
the multi-byte backward walker runs. -/
def advance_backward_once (B : List Nat) (first bound : Int) : State × Int :=
  if is_ascii (byteAt B first) then (State.eAccept, first - 1)
  else advance_mb_backward_once B first bound

/-- `beetle::utf8::prev_once_fn::operator()` from
`include/beetle/utf8/iterator.hpp` (lines 373-401): pre-decrement the
iterator, run `advance_backward_once` against the begin `bound`, and
surface a non-accepting ending state as the mapped error (the C++
throws the error condition). -/
def prev_once (B : List Nat) (iterator bound : Int) : Except Utf8Error Int :=
  let p := advance_backward_once B (iterator - 1) bound
  if p.1 = State.eAccept then Except.ok p.2
  else Except.error (ending_state_to_error p.1)

/-- The loop of `beetle::utf8::is_valid` from
`include/beetle/utf8/algorithm.hpp` (lines 316-331): step
`advance_forward_once` until a non-accepting state or exhaustion.  The
iteration bound is the length of the list; every round consumes at
least one byte, so the bound is never exhausted when the callers pass
the length of the remaining input. -/
def is_valid_loop : Nat → List Nat → Bool
  | _, [] => true
  | 0, _ :: _ => false
  | fuel + 1, b :: rest =>
    if (advance_forward_once b rest).1 = State.eAccept then
      is_valid_loop fuel (advance_forward_once b rest).2
    else false

/-- `beetle::utf8::is_valid` on a byte sequence. -/
def is_valid (B : List Nat) : Bool := is_valid_loop B.length B

/-- The loop of `beetle::utf8::find_invalid` from
`include/beetle/utf8/algorithm.hpp` (lines 280-292): step
`advance_forward_once`; on a non-accepting state return the iterator —
which at that point has been advanced past the bytes the walker
consumed — and on exhaustion return `last`.  The returned iterator is
represented by the suffix of the input it points at (`[]` is `last`).
The iteration bound is as in `is_valid_loop`. -/
def find_invalid_loop : Nat → List Nat → List Nat
  | _, [] => []
  | 0, l => l
  | fuel + 1, b :: rest =>
    if (advance_forward_once b rest).1 = State.eAccept then
      find_invalid_loop fuel (advance_forward_once b rest).2
    else (advance_forward_once b rest).2

/-- `beetle::utf8::find_invalid` on a byte sequence, returning the
suffix at the resulting iterator. -/
def find_invalid (B : List Nat) : List Nat := find_invalid_loop B.length B

/-- `beetle::utf8::find_leading_byte` from
`include/beetle/utf8/algorithm.hpp` (lines 250-254): the first position
whose byte satisfies `is_leading_byte`, returned as the suffix starting
there (`[]` when not found). -/
def find_leading_byte : List Nat → List Nat
  | [] => []
  | b :: rest => if is_leading_byte b then b :: rest else find_leading_byte rest

/-- The loop of `beetle::utf8::internal::impl_safe_str_len` from
`include/beetle/utf8/algorithm.hpp` (lines 68-89): while input remains
and the byte is not the null terminator, step `advance_forward_once`;
on a non-accepting state set the length to 0 and return the state,
otherwise count the character.  `len` is the running length.  The
iteration bound is as in `is_valid_loop`. -/
def impl_safe_str_len_loop : Nat → List Nat → Nat → State × Nat
  | _, [], len => (State.eAccept, len)
  | 0, _ :: _, len => (State.eAccept, len)
  | fuel + 1, b :: rest, len =>
    if b = 0 then (State.eAccept, len)
    else if (advance_forward_once b rest).1 = State.eAccept then
      impl_safe_str_len_loop fuel (advance_forward_once b rest).2 (len + 1)
    else ((advance_forward_once b rest).1, 0)

/-- `beetle::utf8::internal::impl_safe_str_len` on a byte sequence:
the ending DFA state together with the reported character length. -/
def impl_safe_str_len (B : List Nat) : State × Nat := impl_safe_str_len_loop B.length B 0

/-- The `beetle::utf8::str_len` overload taking an error condition
(`include/beetle/utf8/algorithm.hpp` lines 169-181): it returns the
length computed by `impl_safe_str_len` and sets the condition exactly
when the ending state is not `eAccept` (`eNone` models the untouched
default condition). -/
def str_len_condition (B : List Nat) : Nat × Utf8Error :=
  let r := impl_safe_str_len B
  (r.2, if r.1 = State.eAccept then Utf8Error.eNone else ending_state_to_error r.1)

/-- The single-code-point `beetle::utf8::encode` overload from
`include/beetle/utf8/algorithm.hpp` (lines 354-395), byte for byte as
the source writes them; in particular the first byte of the two-byte
branch is `(raw_value >> 6) | 0xDF` (line 366).  The `% 256` matches
the `static_cast<char8_t>` at each write. -/
def encode (code_point : Nat) : List Nat :=
  if code_point ≤ 0x7F then [code_point % 256]
  else if code_point ≤ 0x7FF then
    [((code_point >>> 6) ||| 0xDF) % 256,
     ((code_point &&& 0x3F) % 256) ||| 0x80]
  else if code_point ≤ 0xFFFF then
    [((code_point >>> 12) ||| 0xE0) % 256,
     (((code_point >>> 6) &&& 0x3F) ||| 0x80) % 256,
     ((code_point &&& 0x3F) ||| 0x80) % 256]
  else
    [((code_point >>> 18) ||| 0xF0) % 256,
     (((code_point >>> 12) &&& 0x3F) ||| 0x80) % 256,
     (((code_point >>> 6) &&& 0x3F) ||| 0x80) % 256,
     ((code_point &&& 0x3F) ||| 0x80) % 256]

/-- The range-level `beetle::utf8::encode` overload from
`include/beetle/utf8/algorithm.hpp` (lines 406-413):
`while (first != last) result = encode(*first, result);` — the body
never advances `first`, so the loop condition never changes.  `fuel`
counts loop iterations; `none` means the loop was still running when
the fuel ran out, and the result carries the output written so far only
when the loop exited. -/
def encode_range_loop : Nat → List Nat → List Nat → Option (List Nat)
  | _, [], out => some out
  | 0, _ :: _, _ => none
  | fuel + 1, c :: rest, out => encode_range_loop fuel (c :: rest) (out ++ encode c)

/-- Error type of the single-character decode: either the mapped DFA
error thrown by `decode_and_advance` (`algorithm.hpp` lines 441-450) or
the `std::length_error` thrown by the single-character `decode` when
bytes remain after one character (lines 462-472). -/
inductive DecodeError where
  | dfa_error (e : Utf8Error)
  | length_error
deriving DecidableEq, Repr

/-- The single-character `beetle::utf8::decode` overload
(`include/beetle/utf8/algorithm.hpp` lines 462-472): run
`decode_and_advance_forward_once`; a non-accepting state becomes the
mapped error, and a successful decode with input remaining becomes the
length error.  The decoded value is the raw accumulator (the source
passes it to the unvalidated `CodePoint` constructor).  The source
asserts a nonempty range; the empty list is mapped to the missing-byte
error. -/
def decode_one : List Nat → Except DecodeError Nat
  | [] => Except.error (DecodeError.dfa_error Utf8Error.eMissingByte)
  | b :: rest =>
    let r := decode_and_advance_forward_once b rest
    if r.1 = State.eAccept then
      if r.2.2 = [] then Except.ok r.2.1 else Except.error DecodeError.length_error
    else Except.error (DecodeError.dfa_error (ending_state_to_error r.1))

/-- The loop of `beetle::utf8::sanitize` from
`include/beetle/utf8/algorithm.hpp` (lines 546-578): each round runs
`copy_and_advance_forward_once` into a fresh scratch buffer; on accept
the scratch is flushed to the output, otherwise the pre-encoded
replacement character is flushed and the input is resynchronized with
`find_leading_byte`.  The iteration bound is the length of the list;
every round consumes at least the leading byte. -/
def sanitize_loop (replacement : List Nat) : Nat → List Nat → List Nat
  | _, [] => []
  | 0, _ :: _ => []
  | fuel + 1, b :: rest =>
    let p := copy_and_advance_forward_once b rest
    if p.1 = State.eAccept then p.2.1 ++ sanitize_loop replacement fuel p.2.2
    else replacement ++ sanitize_loop replacement fuel (find_leading_byte p.2.2)

/-- `beetle::utf8::sanitize` (`include/beetle/utf8/algorithm.hpp` lines
546-578): the replacement code point — `U+FFFD` by default at the call
sites — is encoded once up front, then the loop runs. -/
def sanitize (replacement_code_point : Nat) (B : List Nat) : List Nat :=
  sanitize_loop (encode replacement_code_point) B.length B

/-- `beetle::unicode::is_out_of_range` from
`include/beetle/unicode/code_point.hpp` (lines 95-97). -/
def is_out_of_range (code_point : Nat) : Bool := decide (0x10FFFF < code_point)

/-- `beetle::unicode::is_surrogate` from
`include/beetle/unicode/code_point.hpp` (lines 108-113). -/
def is_surrogate (code_point : Nat) : Bool := decide (0xD800 ≤ code_point ∧ code_point ≤ 0xDFFF)

/-- `beetle::unicode::is_code_point` from
`include/beetle/unicode/code_point.hpp` (lines 122-124). -/
def is_code_point (code_point : Nat) : Bool :=
  !is_out_of_range code_point && !is_surrogate code_point

/-- The Unicode code point error enumeration `beetle::unicode::Error`.
Its header `beetle/unicode/error.hpp` is not among the provided
sources; the values are those used by `code_point.hpp` (`eSurrogate`,
`eOutOfRange`) plus the no-error value that a default-constructed
`unicode::ErrorCode` holds (`beetle/core/error_code.hpp` makes a code
truthy exactly when its value differs from the no-error value). -/
inductive UnicodeError where
  | eNone
  | eOutOfRange
  | eSurrogate
deriving DecidableEq, Repr

/-- `beetle::unicode::validate` from
`include/beetle/unicode/code_point.hpp` (lines 217-225): surrogates are
reported first, then out-of-range values, otherwise the no-error
code. -/
def validate (code_point : Nat) : UnicodeError :=
  if is_surrogate code_point then UnicodeError.eSurrogate
  else if is_out_of_range code_point then UnicodeError.eOutOfRange
  else UnicodeError.eNone

/-- `beetle::unicode::make_code_point` from
`include/beetle/unicode/code_point.hpp` (lines 236-245): a truthy error
code from `validate` is returned as the unexpected value, otherwise the
code point is built from the given value unchanged (through the
unvalidated constructor). -/
def make_code_point (code_point : Nat) : Except UnicodeError Nat :=
  let e := validate code_point
  if e ≠ UnicodeError.eNone then Except.error e else Except.ok code_point

/-- The forward DFA loop never returns more input than it was given:
the remaining suffix is at most as long as the input. -/
theorem forward_loop_length_le (s : State) (l : List Nat) :
    (forward_loop s l).2.length ≤ l.length := by
  induction l generalizing s with
  | nil => simp [forward_loop]
  | cons b rest ih =>
    cases h : can_advance s with
    | true =>
      simp only [forward_loop, h, if_true, List.length_cons]
      exact le_trans (ih _) (Nat.le_succ _)
    | false => simp [forward_loop, h]

/-- Each call of `advance_forward_once` consumes at least the leading
byte: the remaining suffix is at most as long as `rest`. -/
theorem advance_forward_once_length_le (b : Nat) (rest : List Nat) :
    (advance_forward_once b rest).2.length ≤ rest.length := by
  unfold advance_forward_once advance_mb_forward_once
  cases h : is_ascii b with
  | true => simp [h]
  | false =>
    simp only [h, Bool.false_eq_true, if_false]
    exact forward_loop_length_le _ _

/-- Whenever the `impl_safe_str_len` loop ends in a non-accepting state,
the length it carries out is 0 (the running count is discarded at the
point of error). -/
theorem impl_safe_str_len_loop_error_zero (fuel : Nat) (B : List Nat) (len : Nat)
    (h : (impl_safe_str_len_loop fuel B len).1 ≠ State.eAccept) :
    (impl_safe_str_len_loop fuel B len).2 = 0 := by
  induction fuel generalizing B len with
  | zero =>
    cases B with
    | nil => exact absurd rfl h
    | cons b rest => exact absurd rfl h
  | succ fuel ih =>
    cases B with
    | nil => exact absurd rfl h
    | cons b rest =>
      by_cases hb : b = 0
      · rw [impl_safe_str_len_loop, if_pos hb] at h
        exact absurd rfl h
      · rw [impl_safe_str_len_loop, if_neg hb] at h ⊢
        by_cases ha : (advance_forward_once b rest).1 = State.eAccept
        · rw [if_pos ha] at h ⊢
          exact ih _ _ h
        · rw [if_neg ha]

/-- The iteration bound passed to the `impl_safe_str_len` loop is
irrelevant as soon as it is at least the length of the input, because
each round consumes at least one byte: the loop result is the one the
unbounded C++ loop computes. -/
theorem impl_safe_str_len_loop_fuel_stable (f1 : Nat) :
    ∀ (f2 : Nat) (B : List Nat) (len : Nat), B.length ≤ f1 → B.length ≤ f2 →
    impl_safe_str_len_loop f1 B len = impl_safe_str_len_loop f2 B len := by
  induction f1 with
  | zero =>
    intro f2 B len h1 h2
    cases B with
    | nil => cases f2 <;> rfl
    | cons b rest => simp at h1
  | succ f1 ih =>
    intro f2 B len h1 h2
    cases B with
    | nil => cases f2 <;> rfl
    | cons b rest =>
      cases f2 with
      | zero => simp at h2
      | succ f2 =>
        simp only [List.length_cons] at h1 h2
        have hr : (advance_forward_once b rest).2.length ≤ rest.length :=
          advance_forward_once_length_le b rest
        simp only [impl_safe_str_len_loop]
        by_cases hb : b = 0
        · rw [if_pos hb, if_pos hb]
        · rw [if_neg hb, if_neg hb]
          by_cases ha : (advance_forward_once b rest).1 = State.eAccept
          · rw [if_pos ha, if_pos ha]
            exact ih f2 _ _ (by omega) (by omega)
          · rw [if_neg ha, if_neg ha]

/-- Claim C1: the encode-decode round trip is claimed to return every
valid code point unchanged, with character length 1.  Evaluating the
code at the valid code point U+00A3 refutes it: the two-byte branch of
`encode` builds its leading byte as `(raw_value >> 6) | 0xDF`, so
U+00A3 is encoded as `DF A3`, which decodes to U+07E3, not U+00A3 (the
character length is 1 as claimed). -/
theorem c1_encode_decode_round_trip_fails_at_A3 :
    Beetle.encode 0xA3 = [0xDF, 0xA3]
    ∧ Beetle.decode_one [0xDF, 0xA3] = Except.ok 0x7E3
    ∧ (0x7E3 : Nat) ≠ 0xA3
    ∧ Beetle.impl_safe_str_len [0xDF, 0xA3] = (Beetle.State.eAccept, 1) := by
  refine ⟨rfl, rfl, by decide, rfl⟩

/-- Claim C2: `sanitize` is claimed to always produce output that passes
the library validation, with empty input giving empty output.
Evaluating the code refutes the validity part: on the valid input
`C2 A3` the copy primitive drops the leading byte, so `sanitize`
outputs the lone continuation byte `A3`, which `is_valid` rejects
(the empty-input part does hold). -/
theorem c2_sanitize_output_can_be_invalid :
    Beetle.sanitize 0xFFFD [] = []
    ∧ Beetle.sanitize 0xFFFD [0xC2, 0xA3] = [0xA3]
    ∧ Beetle.is_valid [0xA3] = false := by
  refine ⟨rfl, rfl, rfl⟩

/-- Claim C3: `copy_and_advance_forward_once` is claimed to append every
byte it consumes, including the leading byte of a multi-byte character.
Evaluating the code at the two-byte character `C2 A3` refutes it: the
cursor is advanced over both bytes (the remaining input is empty) but
the sink receives only `A3` — the leading byte `C2` is consumed at
lines 393-394 of `dfa.hpp` without ever being written. -/
theorem c3_copy_and_advance_drops_leading_byte :
    Beetle.copy_and_advance_forward_once 0xC2 [0xA3]
      = (Beetle.State.eAccept, [0xA3], [])
    ∧ ([0xA3] : List Nat) ≠ [0xC2, 0xA3] := by
  refine ⟨rfl, by decide⟩

/-- Claim C4: `sanitize` is claimed to reproduce valid input
byte-for-byte.  Evaluating the code at the valid input `C2 A3` refutes
it: the output is the single byte `A3`. -/
theorem c4_sanitize_alters_valid_input :
    Beetle.is_valid [0xC2, 0xA3] = true
    ∧ Beetle.sanitize 0xFFFD [0xC2, 0xA3] = [0xA3]
    ∧ ([0xA3] : List Nat) ≠ [0xC2, 0xA3] := by
  refine ⟨rfl, rfl, by decide⟩

/-- Claim C5: the range-level `encode` is claimed to terminate on every
finite range.  The loop in the source never advances its input
iterator, so on any nonempty range the loop condition never changes:
for every iteration bound, the loop is still running when the bound is
hit. -/
theorem c5_encode_range_never_terminates (fuel : Nat) (cps out : List Nat)
    (h : cps ≠ []) : Beetle.encode_range_loop fuel cps out = none := by
  obtain ⟨c, rest, rfl⟩ := List.exists_cons_of_ne_nil h
  induction fuel generalizing out with
  | zero => rfl
  | succ fuel ih => exact ih (out ++ Beetle.encode c)

/-- Witness for C5: with the singleton code point range `[0x24]` and
nine loop iterations allowed, the loop is still running. -/
theorem c5_encode_range_never_terminates_witness :
    Beetle.encode_range_loop 9 [0x24] [] = none :=
  c5_encode_range_never_terminates 9 [0x24] [] (by decide)

/-- Claim C6: `find_invalid` is claimed to return `end` exactly on valid
input and otherwise point at the first byte of the offending character,
with the prefix before it valid.  Evaluating the code refutes every
part: on the invalid input `C2` (truncated character) it returns `end`
(the empty suffix), and on `F0 82 82 AC` it returns the suffix starting
at offset 2 — not offset 0 where the offending character begins — so
the prefix before the returned position, `F0 82`, is not valid
either. -/
theorem c6_find_invalid_boundary_fails :
    Beetle.is_valid [0xC2] = false
    ∧ Beetle.find_invalid [0xC2] = []
    ∧ Beetle.find_invalid [0xF0, 0x82, 0x82, 0xAC] = [0x82, 0xAC]
    ∧ Beetle.is_valid [0xF0, 0x82] = false := by
  refine ⟨rfl, rfl, rfl, rfl⟩

/-- Claim C7: stepping the checked `prev` iterator from `end(B)` to
`begin(B)` over valid input is claimed to succeed and visit the forward
character boundaries in reverse.  Evaluating the code at the valid
two-byte input `C2 A3` refutes it: `prev_once` from the end with the
begin bound stops the backward walk when the cursor reaches the bound —
before the leading byte at position 0 can be consumed — and reports the
missing-byte error. -/
theorem c7_prev_once_fails_on_valid_input :
    Beetle.is_valid [0xC2, 0xA3] = true
    ∧ Beetle.prev_once [0xC2, 0xA3] 2 0 = Except.error Beetle.Utf8Error.eMissingByte := by
  refine ⟨rfl, rfl⟩

/-- Claim C8: every three-byte sequence `ED b2 b3` with `b2` in
`A0..BF` (the surrogate encodings `ED A0 80` through `ED BF BF`) fails
forward validation with the continuation-byte error, detected at the
second byte: the walker stops in `eErrCont` right after consuming `ED`
and `b2`, leaving exactly `[b3]` unconsumed, and the whole sequence is
rejected by `is_valid`. -/
theorem c8_surrogate_sequences_rejected (b2 b3 : Nat)
    (h1 : 0xA0 ≤ b2) (h2 : b2 ≤ 0xBF) (_h3 : Beetle.is_continuation_byte b3 = true) :
    Beetle.advance_forward_once 0xED [b2, b3] = (Beetle.State.eErrCont, [b3])
    ∧ Beetle.ending_state_to_error Beetle.State.eErrCont = Beetle.Utf8Error.eContinuationByte
    ∧ Beetle.is_valid [0xED, b2, b3] = false := by
  interval_cases b2 <;> exact ⟨rfl, rfl, rfl⟩

/-- Witness for C8: the surrogate encoding `ED A0 80` of U+D800. -/
theorem c8_surrogate_sequences_rejected_witness :
    Beetle.advance_forward_once 0xED [0xA0, 0x80] = (Beetle.State.eErrCont, [0x80])
    ∧ Beetle.ending_state_to_error Beetle.State.eErrCont = Beetle.Utf8Error.eContinuationByte
    ∧ Beetle.is_valid [0xED, 0xA0, 0x80] = false :=
  c8_surrogate_sequences_rejected 0xA0 0x80 (by decide) (by decide) (by decide)

/-- Claim C9: `make_code_point` returns the surrogate error on
`[0xD800, 0xDFFF]`, the out-of-range error above `0x10FFFF`, and
otherwise succeeds with exactly the given value; consequently every
value it produces satisfies the code point invariants. -/
theorem c9_make_code_point_raises_iff (u : Nat) :
    (0xD800 ≤ u ∧ u ≤ 0xDFFF →
      Beetle.make_code_point u = Except.error Beetle.UnicodeError.eSurrogate)
    ∧ (0x10FFFF < u →
      Beetle.make_code_point u = Except.error Beetle.UnicodeError.eOutOfRange)
    ∧ (Beetle.is_code_point u = true → Beetle.make_code_point u = Except.ok u)
    ∧ (∀ v, Beetle.make_code_point u = Except.ok v →
      v ≤ 0x10FFFF ∧ ¬(0xD800 ≤ v ∧ v ≤ 0xDFFF)) := by
  refine ⟨?_, ?_, ?_, ?_⟩
  · intro h
    have hs : Beetle.is_surrogate u = true := by
      simp only [Beetle.is_surrogate, decide_eq_true_eq]
      exact h
    simp [Beetle.make_code_point, Beetle.validate, hs]
  · intro h
    have hs : Beetle.is_surrogate u = false := by
      simp only [Beetle.is_surrogate, decide_eq_false_iff_not]
      omega
    have ho : Beetle.is_out_of_range u = true := by
      simp only [Beetle.is_out_of_range, decide_eq_true_eq]
      exact h
    simp [Beetle.make_code_point, Beetle.validate, hs, ho]
  · intro h
    simp only [Beetle.is_code_point, Bool.and_eq_true, Bool.not_eq_true'] at h
    simp [Beetle.make_code_point, Beetle.validate, h.1, h.2]
  · intro v hv
    by_cases hs : Beetle.is_surrogate u = true
    · simp [Beetle.make_code_point, Beetle.validate, hs] at hv
    · rw [Bool.not_eq_true] at hs
      by_cases ho : Beetle.is_out_of_range u = true
      · simp [Beetle.make_code_point, Beetle.validate, hs, ho] at hv
      · rw [Bool.not_eq_true] at ho
        simp only [Beetle.make_code_point, Beetle.validate, hs, ho, Bool.false_eq_true,
          if_false, ne_eq, not_true_eq_false, if_neg] at hv
        simp only [Beetle.is_surrogate, decide_eq_false_iff_not] at hs
        simp only [Beetle.is_out_of_range, decide_eq_false_iff_not] at ho
        cases hv
        exact ⟨by omega, hs⟩

/-- Witness for C9: U+D800 is rejected as a surrogate, 0x110000 as out
of range, and U+0041 is accepted unchanged. -/
theorem c9_make_code_point_raises_iff_witness :
    Beetle.make_code_point 0xD800 = Except.error Beetle.UnicodeError.eSurrogate
    ∧ Beetle.make_code_point 0x110000 = Except.error Beetle.UnicodeError.eOutOfRange
    ∧ Beetle.make_code_point 0x41 = Except.ok 0x41 :=
  ⟨(c9_make_code_point_raises_iff 0xD800).1 (by decide),
   (c9_make_code_point_raises_iff 0x110000).2.1 (by decide),
   (c9_make_code_point_raises_iff 0x41).2.2.1 (by decide)⟩

/-- Claim C10: whenever the checked character-length operation ends in a
non-accepting state — the error-condition `str_len` overload reports a
non-trivial error — the length it returns is 0: the count of characters
accepted before the error is discarded. -/
theorem c10_str_len_error_reports_zero (B : List Nat)
    (h : (Beetle.str_len_condition B).2 ≠ Beetle.Utf8Error.eNone) :
    (Beetle.str_len_condition B).1 = 0 := by
  by_cases ha : (Beetle.impl_safe_str_len B).1 = Beetle.State.eAccept
  · exact absurd (by simp [Beetle.str_len_condition, ha]) h
  · have ha2 : (Beetle.impl_safe_str_len_loop B.length B 0).1 ≠ Beetle.State.eAccept := ha
    have hz := impl_safe_str_len_loop_error_zero B.length B 0 ha2
    simpa [Beetle.str_len_condition, Beetle.impl_safe_str_len] using hz

/-- Witness for C10: the stray continuation byte `80` makes `str_len`
report the leading-byte error and length 0. -/
theorem c10_str_len_error_reports_zero_witness :
    (Beetle.str_len_condition [0x80]).2 ≠ Beetle.Utf8Error.eNone
    ∧ (Beetle.str_len_condition [0x80]).1 = 0 :=
  ⟨by decide, c10_str_len_error_reports_zero [0x80] (by decide)⟩

end Beetle
